import Mathlib

/-!
Verification of the Scanner subsystem of `spacekit` (`spacekit/analyzer/scan.py`)
against its natural-language specification.

The Python source is shallowly embedded: Python strings are Lean `String`s
manipulated through structural code-point operations (Python compares and
slices strings by code points), Python dicts are association lists in
insertion order, raised exceptions are `Except` errors, and `None` is
`Option.none`.  The `Compute` result loader (`spacekit/analyzer/compute.py`)
is not part of the sources under verification; where a claim depends on it,
it is modelled from the specification and marked as such.
-/

namespace SpacekitScan

/-- Raised Python exceptions relevant to `scan.py`. -/
inductive PyError where
  | valueError
  | importError
  | indexError
  | keyError
  | attributeError
  | typeError
  | fileNotFoundError
deriving DecidableEq

/-- Equality of outcomes (raised exception or returned value) is decidable,
so concrete executions can be checked by evaluation. -/
instance {ε α : Type} [DecidableEq ε] [DecidableEq α] : DecidableEq (Except ε α) :=
  fun x y =>
    match x, y with
    | .ok a, .ok b =>
      if h : a = b then .isTrue (congrArg Except.ok h)
      else .isFalse fun hc => h (Except.ok.inj hc)
    | .error a, .error b =>
      if h : a = b then .isTrue (congrArg Except.error h)
      else .isFalse fun hc => h (Except.error.inj hc)
    | .ok _, .error _ => .isFalse fun hc => Except.noConfusion hc
    | .error _, .ok _ => .isFalse fun hc => Except.noConfusion hc

/-! ### Python string primitives (structural, code-point based) -/

/-- Lexicographic code-point comparison of character lists; this is how
Python compares strings (`a <= b`). -/
def lexLe : List Char → List Char → Bool
  | [], _ => true
  | _ :: _, [] => false
  | a :: as, b :: bs => if a = b then lexLe as bs else decide (a < b)

/-- Python string ordering (`a <= b`), as a decidable relation. -/
def pyStrLe (a b : String) : Prop := lexLe a.data b.data = true

instance : DecidableRel pyStrLe := fun _ _ => decEq _ _

/-- `s.split(sep)` on the underlying character list: splits at every
occurrence of `sep`, keeping empty segments, and yields `[[]]` on `[]`,
exactly like Python `str.split` with an explicit single-character separator. -/
def splitCharList (sep : Char) : List Char → List (List Char)
  | [] => [[]]
  | c :: cs =>
    let r := splitCharList sep cs
    if c = sep then [] :: r
    else
      match r with
      | [] => [[c]]
      | h :: t => (c :: h) :: t

/-- Python `s.split(sep)` for a one-character separator. -/
def pySplit (s : String) (sep : Char) : List String :=
  (splitCharList sep s.data).map String.mk

/-- Python `s.split(sep)[-1]`: the final segment.  `str.split` never returns
an empty list, so the default is unreachable. -/
def lastSegment (s : String) (sep : Char) : String :=
  (pySplit s sep).getLastD ""

/-- Python `s[:n]` (prefix of `n` code points, shorter if `s` is). -/
def pyTake (s : String) (n : Nat) : String :=
  String.mk (s.data.take n)

/-- Digit-string to number, for `int()`. -/
def digitsToNat (l : List Char) : Nat :=
  l.foldl (fun a c => 10 * a + (c.toNat - 48)) 0

/-- All characters are decimal digits and there is at least one. -/
def allDigits (l : List Char) : Bool :=
  !l.isEmpty && l.all fun c => decide ('0' ≤ c) && decide (c ≤ '9')

/-- Python `int(s)`: an optionally signed decimal digit string parses to an
integer; anything else raises `ValueError` (modelled as `none`).
(Surrounding whitespace and digit-group underscores, which Python also
accepts, never occur in the directory names this code parses.) -/
def pyInt (s : String) : Option Int :=
  match s.data with
  | '-' :: rest => if allDigits rest then some (-(digitsToNat rest : Int)) else none
  | '+' :: rest => if allDigits rest then some ((digitsToNat rest : Int)) else none
  | l => if allDigits l then some ((digitsToNat l : Int)) else none

/-- The index adjustment of Python list subscripts: a negative index counts
from the end. -/
def pyAdjust (len : Nat) (i : Int) : Int :=
  if i < 0 then i + len else i

/-- Python list indexing `xs[i]` for a possibly negative `i`: negative
indices count from the end; anything out of range raises `IndexError`. -/
def pyIndex {α : Type} (xs : List α) (i : Int) : Except PyError α :=
  if h : 0 ≤ pyAdjust xs.length i ∧ pyAdjust xs.length i < xs.length then
    .ok (xs.get ⟨(pyAdjust xs.length i).toNat, by omega⟩)
  else
    .error .indexError

/-! ### Python dict primitives (association lists in insertion order) -/

/-- Dict lookup `d[k]` (as an `Option`; the first binding wins, and
insertion-order dicts never hold duplicate keys). -/
def alookup {κ β : Type} [DecidableEq κ] : List (κ × β) → κ → Option β
  | [], _ => none
  | (k, v) :: t, key => if k = key then some v else alookup t key

/-- Dict assignment `d[k] = v`: updates the binding in place if the key is
present (keeping its position, as Python dicts do) and appends it otherwise. -/
def dictSet {κ β : Type} [DecidableEq κ] : List (κ × β) → κ → β → List (κ × β)
  | [], key, v => [(key, v)]
  | p :: t, key, v => if p.1 = key then (key, v) :: t else p :: dictSet t key v

/-! ### Run discovery and `MegaScanner.__init__`
(`scan.py` lines 94-133).  `glob.glob` itself is the filesystem boundary:
its raw match list is an input; `sorted` is Python's code-point sort. -/

/-- `sorted(list(glob.glob(perimeter)))`.  For strings, every correct sort
of the match list is equal to Python's (duplicate strings are identical
values, so stability is unobservable); insertion sort is used because it
computes by structural recursion. -/
def discover (globMatches : List String) : List String :=
  globMatches.insertionSort pyStrLe

/-- The immutable part of `MegaScanner` state set up by `__init__`. -/
structure ScannerInit where
  datapaths : List String
  datasets : List String
  timestamps : List Int
  dates : List String
  primary : Int
deriving DecidableEq

/-- `int(t.split("-")[-1])`, the timestamp parse in `__init__`. -/
def parseTimestamp (t : String) : Except PyError Int :=
  match pyInt (lastSegment t '-') with
  | some n => .ok n
  | none => .error .valueError

/-- `MegaScanner.__init__` (scan.py 94-133): sorts the glob matches, takes
each path's final component as its dataset name, parses the trailing
hyphen-separated token of each name as an integer timestamp (a `ValueError`
aborts construction), takes the first 10 characters of each name as its
date, and finally raises `ImportError` when plotly is unavailable.  The
plotly check is the last statement of `__init__`, after the parsing. -/
def mkMegaScanner (plotly : Bool) (globMatches : List String) (primary : Int) :
    Except PyError ScannerInit := do
  let datapaths := discover globMatches
  let datasets := datapaths.map fun d => lastSegment d '/'
  let timestamps ← datasets.mapM parseTimestamp
  let dates := datasets.map fun v => pyTake v 10
  if !plotly then
    .error .importError
  else
    .ok { datapaths := datapaths, datasets := datasets,
          timestamps := timestamps, dates := dates, primary := primary }

/-! ### `MegaScanner.select_dataset` (scan.py 135-163) -/

/-- `select_dataset(primary)` (scan.py 135-163).  `fsCsv d` stands for
`glob.glob(f"{d}/data/*.csv")`.  The argument is kept only when truthy
(`if primary:` — so `None` and `0` leave `self.primary` alone); the
out-of-range guard tests `self.primary > len(self.datapaths)` with a strict
`>` and no lower bound, then the selected path is read with a Python list
index, and the first csv match is taken with `[0]`.  Returns the possibly
updated `primary` together with the selected csv path (`None` when no runs
were discovered). -/
def selectDataset (fsCsv : String → List String) (st : ScannerInit)
    (primaryArg : Option Int) : Except PyError (Int × Option String) := do
  let p1 : Int :=
    match primaryArg with
    | some n => if n ≠ 0 then n else st.primary
    | none => st.primary
  let p2 : Int := if p1 > (st.datapaths.length : Int) then -1 else p1
  if st.datapaths.length > 0 then
    let dpath ← pyIndex st.datapaths p2
    match fsCsv dpath with
    | [] => .error .indexError
    | c :: _ => .ok (p2, some c)
  else
    .ok (p2, none)

/-! ### Version labels (`make_mega`, scan.py 165-184) -/

/-- The automatically assigned labels `v0 .. v(n-1)`. -/
def autoVersions (n : Nat) : List String :=
  (List.range n).map fun i => "v" ++ toString i

/-- The `self.versions` update performed by `make_mega`: fresh labels are
generated only when none were set, and only a non-empty batch is kept
(`if len(versions) > 0`). -/
def assignVersions (prev : Option (List String)) (n : Nat) : Option (List String) :=
  match prev with
  | some vs => some vs
  | none => if n = 0 then none else some (autoVersions n)

/-! ### The generic MegaIndex with reference semantics
(`make_mega`, scan.py 165-184, and `_scan_results`, scan.py 225-242).

`make_mega` stores the very object `self.res_keys` as the `"res"` value of
every version's entry, and `_scan_results` then mutates that object through
`self.mega[v]["res"][N] = com`.  To capture this sharing the per-version
result dicts live in an explicit heap of reference cells and a mega entry
holds a reference, exactly mirroring Python object identity.  `R` is the
type of loaded compute objects. -/

/-- One heap: reference id to result dict (`ResultKind` name to
record-or-`None`). -/
abbrev Heap (R : Type) : Type := List (Nat × List (String × Option R))

/-- Heap lookup by reference id. -/
def heapGet {R : Type} (h : Heap R) (ref : Nat) : Option (List (String × Option R)) :=
  match h with
  | [] => none
  | (r, d) :: t => if r = ref then some d else heapGet t ref

/-- In-place mutation `cell[k] = v` of the dict stored in one heap cell. -/
def heapSet {R : Type} (h : Heap R) (ref : Nat) (k : String) (v : Option R) : Heap R :=
  h.map fun p => if p.1 = ref then (p.1, dictSet p.2 k v) else p

/-- One entry of the generic mega dict:
`{"date": d, "time": t, "res": <reference>}`. -/
structure GEntry where
  date : String
  time : Int
  res : Nat
deriving DecidableEq

/-- Mutable state of a generic `MegaScanner` whose `res_keys` has been set
to a dict (as every family subclass does): the init data, the current
`self.versions`, the reference held by `self.res_keys`, the heap, and
`self.mega`. -/
structure GScanner (R : Type) where
  init : ScannerInit
  versions : Option (List String)
  resKeysRef : Nat
  heap : Heap R
  mega : List (String × GEntry)
deriving DecidableEq

/-- A generic scanner directly after `__init__` plus a subclass-style
`self.res_keys = {k₁: None, …}` assignment allocating one fresh dict. -/
def gScannerOfInit {R : Type} (st : ScannerInit) (resKeys : List String) :
    GScanner R :=
  { init := st, versions := none, resKeysRef := 0,
    heap := [(0, resKeys.map fun k => (k, none))], mega := [] }

/-- `make_mega` (scan.py 165-184): resets `self.mega` and gives *every*
version the entry `{"date": d, "time": t, "res": self.res_keys}` — all
entries share the single `res_keys` reference.  Fresh `v{i}` labels are
assigned only when `self.versions` is `None`. -/
def gMakeMega {R : Type} (st : GScanner R) : GScanner R :=
  let dt := st.init.dates.zip st.init.timestamps
  let labels :=
    match st.versions with
    | some vs => vs
    | none => autoVersions dt.length
  let mega := (labels.zip dt).map fun p =>
    (p.1, { date := p.2.1, time := p.2.2, res := st.resKeysRef : GEntry })
  { st with versions := assignVersions st.versions dt.length, mega := mega }

/-- `f"{d}/results/{N}"`, the results path handed to a compute object. -/
def resPath (d N : String) : String := d ++ "/results/" ++ N

/-- `MegaScanner._scan_results` (scan.py 225-242): rebuilds the mega
skeleton, then for every datapath `d` (paired with its version label) and
every declared name `N` loads a compute object from `f"{d}/results/{N}"`
and stores it with `self.mega[v]["res"][N] = com` — a mutation of the heap
cell the entry's `"res"` refers to.  `load` abstracts
`C(algorithm=A, classes=self.labels, res_path=...)` followed by `upload` and
`load_results`, a deterministic function of the results path.
(`self.versions[i]` is paired with `datapaths[i]` by `zip`; `make_mega`
guarantees the lengths agree.) -/
def gScanResults {R : Type} (load : String → R) (names : List String)
    (st : GScanner R) : GScanner R :=
  let st := gMakeMega st
  let vs := st.versions.getD []
  (st.init.datapaths.zip vs).foldl
    (fun s dv =>
      names.foldl
        (fun s N =>
          let com := load (resPath dv.1 N)
          let ref := ((alookup s.mega dv.2).map GEntry.res).getD 0
          { s with heap := heapSet s.heap ref N (some com) })
        s)
    st

/-- Reading `self.mega[v]["res"][N]`: resolve the entry, dereference its
`res` cell, look up the kind.  Outer `Option`: entry/key present at all;
inner `Option`: record or `None` (absent). -/
def gMegaRes {R : Type} (st : GScanner R) (v N : String) : Option (Option R) :=
  match alookup st.mega v with
  | none => none
  | some e =>
    match heapGet st.heap e.res with
    | none => none
    | some d => alookup d N

/-! ### The HstCal family (`HstCalScanner`, scan.py 554-620)

`HstCalScanner.scan_results` re-binds every version's `"res"` to a freshly
constructed dict (`self.mega[v]["res"] = dict(mem_bin=b, …)`), so after a
scan no sharing remains; the family model therefore uses plain value
semantics for entries.  The result loader (`compute.py`) is not among the
sources; it is modelled from the specification below. -/

/-- The loaded contents of one result bundle, as far as the comparison
operations read them: the score dicts `acc_loss` and `loss` (score name to
value; the numeric values are opaque here and carried as `Int`), the raw
confusion matrix `cmx` and its normalized form `cmx_norm`. -/
structure ComRecord where
  acc_loss : List (String × Int)
  loss : List (String × Int)
  cmx : List (List Int)
  cmx_norm : List (List Int)
deriving DecidableEq

/-- Modelled from the spec (§4.2): the ResultRecord loader behind
`load_compute_object` (scan.py 186-223) lives in
`spacekit/analyzer/compute.py`, which is not among the sources under
verification.  Per the spec it resolves the bundle at the given results
path and deterministically reconstructs the record, yielding `Absent`
(`none`) when the bundle directory is missing or its contents are
malformed, and never raising.  `fs` abstracts the disk: the parseable
bundle found at a path, if any. -/
def loadComputeObject (fs : String → Option ComRecord) (path : String) :
    Option ComRecord :=
  fs path

/-- One entry of the family mega dict (value semantics, see above). -/
structure CalEntry where
  date : String
  time : Int
  res : List (String × Option ComRecord)
deriving DecidableEq

/-- `HstCalScanner` state after construction. -/
structure CalScanner where
  datapaths : List String
  datasets : List String
  timestamps : List Int
  dates : List String
  primary : Int
  target : String
  data : Option String
  versions : Option (List String)
  mega : List (String × CalEntry)
deriving DecidableEq

/-- `self.res_keys = dict(mem_bin=None, memory=None, wallclock=None)`. -/
def calResKeys : List (String × Option ComRecord) :=
  [("mem_bin", none), ("memory", none), ("wallclock", none)]

/-- `make_mega` under value semantics (sound for the family scanners, whose
`scan_results` re-binds whole `res` dicts instead of mutating the shared
one): version labels paired with `zip(self.dates, self.timestamps)`, every
entry's `res` starting as the `res_keys` contents. -/
def calMakeMega (prev : Option (List String)) (dates : List String)
    (times : List Int) (resKeys : List (String × Option ComRecord)) :
    Option (List String) × List (String × CalEntry) :=
  let dt := dates.zip times
  let labels :=
    match prev with
    | some vs => vs
    | none => autoVersions dt.length
  let mega := (labels.zip dt).map fun p =>
    (p.1, { date := p.2.1, time := p.2.2, res := resKeys : CalEntry })
  (assignVersions prev dt.length, mega)

/-- `HstCalScanner.__init__` (scan.py 563-574): runs the base `__init__`
(discovery, parsing, plotly check), fixes labels/classes/`res_keys`/target,
selects the primary dataset (`self.data = self.select_dataset()`, which may
itself raise), and builds the mega skeleton. -/
def mkHstCalScanner (plotly : Bool) (fsCsv : String → List String)
    (globMatches : List String) (primary : Int) : Except PyError CalScanner := do
  let st ← mkMegaScanner plotly globMatches primary
  let sel ← selectDataset fsCsv st none
  let vm := calMakeMega none st.dates st.timestamps calResKeys
  .ok { datapaths := st.datapaths, datasets := st.datasets,
        timestamps := st.timestamps, dates := st.dates, primary := sel.1,
        target := "mem_bin", data := sel.2, versions := vm.1, mega := vm.2 }

/-- `HstCalScanner.load_com_objects` (scan.py 598-620): the three compute
objects of one iteration, loaded from the `mem_bin`, `memory` and
`wallclock` subdirectories of the run's results tree. -/
def loadComObjects (fs : String → Option ComRecord) (d : String) :
    Option ComRecord × Option ComRecord × Option ComRecord :=
  (loadComputeObject fs (resPath d "mem_bin"),
   loadComputeObject fs (resPath d "memory"),
   loadComputeObject fs (resPath d "wallclock"))

/-- `dict(mem_bin=b, memory=m, wallclock=w)`. -/
def tripleRes (c : Option ComRecord × Option ComRecord × Option ComRecord) :
    List (String × Option ComRecord) :=
  [("mem_bin", c.1), ("memory", c.2.1), ("wallclock", c.2.2)]

/-- `self.mega[v]["res"] = r`: a `KeyError` if `v` is not a key of the mega
dict, otherwise the entry's `res` is re-bound (the entry keeps its place,
date and time). -/
def setRes (r : List (String × Option ComRecord)) (e : CalEntry) : CalEntry :=
  { e with res := r }

def megaSetRes (mega : List (String × CalEntry)) (v : String)
    (r : List (String × Option ComRecord)) :
    Except PyError (List (String × CalEntry)) :=
  if mega.any fun p => p.1 = v then
    .ok (mega.map fun p => if p.1 = v then (p.1, setRes r p.2) else p)
  else
    .error .keyError

/-- `HstCalScanner.scan_results` (scan.py 576-596): loads the compute-object
triple of every datapath, then for `i in range(len(self.versions))` re-binds
`self.mega[versions[i]]["res"]` to a fresh dict built from triple `i`.
Iterating over a `None` `self.versions` is a `TypeError`; an `i` beyond the
triples is an `IndexError`; the `zip` pairing is exact when the lengths
agree, which construction guarantees. -/
def calScanResults (fs : String → Option ComRecord) (st : CalScanner) :
    Except PyError CalScanner :=
  match st.versions with
  | none => .error .typeError
  | some vs =>
    let comObjects := st.datapaths.map (loadComObjects fs)
    if vs.length > comObjects.length then .error .indexError
    else do
      let mega ← (vs.zip comObjects).foldlM
        (fun m p => megaSetRes m p.1 (tripleRes p.2)) st.mega
      .ok { st with mega := mega }

/-- Reading `self.mega[v]["res"][N]` in the family model. -/
def calMegaRes (st : CalScanner) (v N : String) : Option (Option ComRecord) :=
  match alookup st.mega v with
  | none => none
  | some e => alookup e.res N

/-! ### Comparison operations (`compare_scores`, scan.py 273-299;
`make_clf_plots`, scan.py 250-265; `triple_cmx`, scan.py 484-551) -/

/-- One loop iteration of `compare_scores`: reads
`self.mega[v]["res"][self.target]` (a `KeyError` if either key is missing),
takes its `acc_loss` or `loss` attribute — an `AttributeError` when the
slot holds `None` — and wraps it as the version's score column. -/
def scoreColumn (st : CalScanner) (metric : String) (v : String) :
    Except PyError (String × List (String × Int)) := do
  let e ←
    match alookup st.mega v with
    | some e => Except.ok e
    | none => Except.error PyError.keyError
  let slot ←
    match alookup e.res st.target with
    | some s => Except.ok s
    | none => Except.error PyError.keyError
  match slot with
  | none => Except.error PyError.attributeError
  | some r =>
    Except.ok (v, if metric = "acc_loss" then r.acc_loss else r.loss)

/-- `compare_scores(metric)` (scan.py 273-299): builds one single-column
dataframe per version from that version's record for `self.target` and
concatenates them.  Iterating a `None` `self.versions` is a `TypeError`;
`pd.concat` of an empty list raises a `ValueError`.  The resulting table is
the ordered list of (version, score dict) columns. -/
def compareScores (st : CalScanner) (metric : String) :
    Except PyError (List (String × List (String × Int))) :=
  match st.versions with
  | none => .error .typeError
  | some vs => do
    let cols ← vs.mapM (scoreColumn st metric)
    if cols.isEmpty then .error .valueError
    else .ok cols

/-- The confusion-matrix bundle built by `make_clf_plots`. -/
structure CmxBundle where
  normalized : List (List (List Int))
  counts : List (List (List Int))
deriving DecidableEq

/-- The record of one version for `target`, as dereferenced by every line of
the `make_clf_plots` loop body (`self.mega[v]["res"][target].draw_plots()`
and the attribute reads after it): a missing key is a `KeyError` and a
`None` slot an `AttributeError`. -/
def clfRecord (st : CalScanner) (target v : String) :
    Except PyError ComRecord :=
  match alookup st.mega v with
  | none => Except.error PyError.keyError
  | some e =>
    match alookup e.res target with
    | none => Except.error PyError.keyError
    | some none => Except.error PyError.attributeError
    | some (some r) => Except.ok r

/-- `make_clf_plots(target)` (scan.py 250-265): walks *all* of
`self.versions`, dereferencing every version's record (so one absent record
raises), then collects `self.cmx` — the normalized and raw confusion
matrices of every version, in version order. -/
def makeClfPlots (st : CalScanner) (target : String) :
    Except PyError CmxBundle :=
  match st.versions with
  | none => .error .typeError
  | some vs => do
    let recs ← vs.mapM (clfRecord st target)
    .ok { normalized := recs.map ComRecord.cmx_norm,
          counts := recs.map ComRecord.cmx }

/-- The data shaping of `triple_cmx(cmx, cmx_type)` (scan.py 484-551):
`subplot_titles = self.versions` — always the full version list — while one
heatmap trace is drawn per entry of the `cmx` argument.  Returns the
subtitle list and the number of traces. -/
def tripleCmx (versions : List String) (cmx : List (List (List Int))) :
    List String × Nat :=
  (versions, cmx.length)

/-! ### The dataset importer (`decode_categorical`, scan.py 32-51, and
`import_dataset`, scan.py 54-77) -/

/-- A dataframe cell: an encoded integer or a decoded string.  A column
missing from a row stands for a missing value (`NaN`), which compares
unequal to every integer, as in pandas. -/
inductive Value where
  | int (i : Int)
  | str (s : String)
deriving DecidableEq

/-- One dataframe row: column name to cell, in column order. -/
abbrev Row : Type := List (String × Value)

/-- A dataframe: its registered columns and its rows. -/
structure DataFrame where
  cols : List String
  rows : List Row
deriving DecidableEq

/-- The effect of one masked `.loc` assignment on one row: a row whose
`key` cell equals the integer `i` gets the string `name` in the companion
column `{key}_key`; any other row — including rows whose `key` cell is
missing (`NaN` compares unequal to every integer) — is untouched. -/
def rowDecodePair (key : String) (i : Int) (name : String) (row : Row) : Row :=
  if alookup row key = some (Value.int i) then
    dictSet row (key ++ "_key") (Value.str name)
  else row

/-- `df.loc[df[key] == i, f"{key}_key"] = name` for one decoder pair:
reading `df[key]` raises a `KeyError` when the column does not exist;
otherwise the companion column joins the dataframe (pandas creates it on
`.loc` assignment) and the rows are updated per `rowDecodePair`. -/
def applyDecodePair (df : DataFrame) (key : String) (i : Int) (name : String) :
    Except PyError DataFrame :=
  if key ∈ df.cols then
    .ok { cols := if key ++ "_key" ∈ df.cols then df.cols
                  else df.cols ++ [key ++ "_key"],
          rows := df.rows.map (rowDecodePair key i name) }
  else
    .error .keyError

/-- `decode_categorical(df, decoder_key)` (scan.py 32-51): for every column
`key` of the decoder table and every `(i, name)` pair of its mapping, runs
the masked `.loc` assignment above, in insertion order. -/
def decode_categorical (df : DataFrame)
    (decoderKey : List (String × List (Int × String))) :
    Except PyError DataFrame :=
  decoderKey.foldlM
    (fun df kp => kp.2.foldlM (fun df p => applyDecodePair df kp.1 p.1 p.2) df)
    df

/-- `import_dataset` (scan.py 54-77): loads the csv at `filename` (the
missing-file path only prints, then `pd.read_csv` raises
`FileNotFoundError`) and, when a truthy `decoder_key` was supplied (a
non-empty dict), decodes it.  `fs` abstracts `pd.read_csv` with the fixed
keyword arguments. -/
def import_dataset (fs : String → Option DataFrame) (filename : String)
    (decoderKey : Option (List (String × List (Int × String)))) :
    Except PyError DataFrame := do
  let df ←
    match fs filename with
    | none => Except.error PyError.fileNotFoundError
    | some df => Except.ok df
  match decoderKey with
  | none => .ok df
  | some [] => .ok df
  | some dk => decode_categorical df dk

/-- The whole decoding pass of one decoder column, viewed on one row:
its `(i, name)` pairs applied in insertion order. -/
def rowDecode (key : String) (pairs : List (Int × String)) (row : Row) : Row :=
  pairs.foldl (fun r p => rowDecodePair key p.1 p.2 r) row

/-- The whole `decode_categorical` pass viewed on one row: each decoder
column applied in insertion order.  (Row updates are independent across
rows, so the dataframe fold is the row-wise map of this function.) -/
def rowDecodeAll (decoderKey : List (String × List (Int × String)))
    (row : Row) : Row :=
  decoderKey.foldl (fun r kp => rowDecode kp.1 kp.2 r) row

/-! ### Concrete scenarios, for checking the theorems on explicit inputs -/

/-- The spec's three example run directories, in unsorted glob order. -/
def exampleGlob : List String :=
  ["data/2021-10-28-1635457222", "data/2021-08-22-1629663047",
   "data/2021-11-04-1636048291"]

/-- A disk on which every run has exactly one csv dataset. -/
def exampleCsv : String → List String := fun d => [d ++ "/data/df.csv"]

/-- The scanner `__init__` state over `exampleGlob`. -/
def exampleInit : ScannerInit :=
  { datapaths := ["data/2021-08-22-1629663047", "data/2021-10-28-1635457222",
      "data/2021-11-04-1636048291"],
    datasets := ["2021-08-22-1629663047", "2021-10-28-1635457222",
      "2021-11-04-1636048291"],
    timestamps := [1629663047, 1635457222, 1636048291],
    dates := ["2021-08-22", "2021-10-28", "2021-11-04"],
    primary := -1 }

/-- A fully populated classifier record (score values are opaque). -/
def exampleRecord : ComRecord :=
  { acc_loss := [("train_acc", 1), ("train_loss", 2), ("test_acc", 3),
      ("test_loss", 4)],
    loss := [("train_loss", 2), ("test_loss", 4)],
    cmx := [[5, 0], [0, 5]],
    cmx_norm := [[1, 0], [0, 1]] }

/-- A disk with every bundle present except v1's `mem_bin` bundle. -/
def exampleDiskAbsentV1 : String → Option ComRecord := fun p =>
  if p = "data/2021-10-28-1635457222/results/mem_bin" then none
  else some exampleRecord

/-- A disk with every bundle present. -/
def exampleDiskFull : String → Option ComRecord := fun _ => some exampleRecord

/-- The `HstCalScanner` state constructed over `exampleGlob`. -/
def exampleCal : CalScanner :=
  { datapaths := exampleInit.datapaths,
    datasets := exampleInit.datasets,
    timestamps := exampleInit.timestamps,
    dates := exampleInit.dates,
    primary := -1,
    target := "mem_bin",
    data := some "data/2021-11-04-1636048291/data/df.csv",
    versions := some ["v0", "v1", "v2"],
    mega := [("v0", { date := "2021-08-22", time := 1629663047,
                      res := calResKeys }),
             ("v1", { date := "2021-10-28", time := 1635457222,
                      res := calResKeys }),
             ("v2", { date := "2021-11-04", time := 1636048291,
                      res := calResKeys })] }

/-- The fully loaded result dict of one version on `exampleDiskFull`. -/
def fullRes : List (String × Option ComRecord) :=
  [("mem_bin", some exampleRecord), ("memory", some exampleRecord),
   ("wallclock", some exampleRecord)]

/-- `exampleCal` after `scan_results` on `exampleDiskFull`. -/
def exampleCalScanned : CalScanner :=
  { exampleCal with
    mega := [("v0", { date := "2021-08-22", time := 1629663047,
                      res := fullRes }),
             ("v1", { date := "2021-10-28", time := 1635457222,
                      res := fullRes }),
             ("v2", { date := "2021-11-04", time := 1636048291,
                      res := fullRes })] }

/-- A dataframe with an encoded detector column, per the spec's example. -/
def exampleRow0 : Row := [("det", Value.int 4), ("mag", Value.int 7)]

def exampleRow1 : Row := [("det", Value.int 0), ("mag", Value.int 9)]

def exampleDf : DataFrame :=
  { cols := ["det", "mag"], rows := [exampleRow0, exampleRow1] }

/-- The SVM family's detector decode table. -/
def exampleDecoder : List (String × List (Int × String)) :=
  [("det", [(0, "hrc"), (1, "ir"), (2, "sbc"), (3, "uvis"), (4, "wfc")])]

def exampleRow0Decoded : Row :=
  [("det", Value.int 4), ("mag", Value.int 7), ("det_key", Value.str "wfc")]

def exampleRow1Decoded : Row :=
  [("det", Value.int 0), ("mag", Value.int 9), ("det_key", Value.str "hrc")]

/-- `exampleDf` after decoding with `exampleDecoder`. -/
def exampleDfDecoded : DataFrame :=
  { cols := ["det", "mag", "det_key"],
    rows := [exampleRow0Decoded, exampleRow1Decoded] }

/-! ## Helper lemmas -/

theorem alookup_eq_some_of_mem_keys {κ β : Type} [DecidableEq κ]
    {d : List (κ × β)} {k : κ} (h : k ∈ d.map Prod.fst) :
    ∃ b, alookup d k = some b := by
  induction d with
  | nil => simp at h
  | cons p t ih =>
    obtain ⟨pk, pv⟩ := p
    rw [List.map_cons, List.mem_cons] at h
    by_cases hp : pk = k
    · exact ⟨pv, by simp [alookup, hp]⟩
    · have hk : k ∈ t.map Prod.fst :=
        h.resolve_left fun he : k = (pk, pv).1 => hp he.symm
      obtain ⟨b, hb⟩ := ih hk
      exact ⟨b, by simp [alookup, hp, hb]⟩

theorem alookup_eq_none_of_not_mem_keys {κ β : Type} [DecidableEq κ]
    {d : List (κ × β)} {k : κ} (h : k ∉ d.map Prod.fst) :
    alookup d k = none := by
  induction d with
  | nil => rfl
  | cons p t ih =>
    obtain ⟨pk, pv⟩ := p
    rw [List.map_cons, List.mem_cons, not_or] at h
    have h1 : ¬pk = k := fun he => h.1 he.symm
    simp [alookup, h1, ih h.2]

theorem any_key_eq_iff_mem_keys {κ β : Type} [DecidableEq κ]
    (d : List (κ × β)) (k : κ) :
    (d.any fun p => p.1 = k) = true ↔ k ∈ d.map Prod.fst := by
  induction d with
  | nil => simp
  | cons p t ih =>
    obtain ⟨pk, pv⟩ := p
    rw [List.any_cons, List.map_cons, List.mem_cons, Bool.or_eq_true,
      decide_eq_true_eq]
    constructor
    · rintro (h | h)
      · exact .inl h.symm
      · exact .inr (ih.mp h)
    · rintro (h | h)
      · exact .inl h.symm
      · exact .inr (ih.mpr h)

theorem alookup_dictSet_self {κ β : Type} [DecidableEq κ]
    (d : List (κ × β)) (k : κ) (v : β) :
    alookup (dictSet d k v) k = some v := by
  induction d with
  | nil => simp [dictSet, alookup]
  | cons p t ih =>
    obtain ⟨pk, pv⟩ := p
    by_cases hp : pk = k
    · simp [dictSet, hp, alookup]
    · simp [dictSet, hp, alookup, ih]

theorem alookup_dictSet_ne {κ β : Type} [DecidableEq κ]
    (d : List (κ × β)) (k k' : κ) (v : β) (h : k' ≠ k) :
    alookup (dictSet d k v) k' = alookup d k' := by
  induction d with
  | nil =>
    have hk : ¬k = k' := fun he => h he.symm
    simp [dictSet, alookup, hk]
  | cons p t ih =>
    obtain ⟨pk, pv⟩ := p
    by_cases hp : pk = k
    · have hk : ¬k = k' := fun he => h he.symm
      subst hp
      simp [dictSet, alookup, hk]
    · simp [dictSet, hp, alookup, ih]

/-- Unfolding lemma for `alookup` at a cons cell. -/
theorem alookup_cons {κ β : Type} [DecidableEq κ] (a : κ) (b : β)
    (t : List (κ × β)) (key : κ) :
    alookup ((a, b) :: t) key = if a = key then some b else alookup t key := rfl

/-- Updating the entry of one key by a value transformation. -/
theorem alookup_map_update_self {κ β : Type} [DecidableEq κ]
    {d : List (κ × β)} {k : κ} {e : β} (f : β → β)
    (h : alookup d k = some e) :
    alookup (d.map fun p => if p.1 = k then (p.1, f p.2) else p) k = some (f e) := by
  induction d with
  | nil => simp [alookup] at h
  | cons p t ih =>
    obtain ⟨pk, pv⟩ := p
    rw [List.map_cons]
    by_cases hp : pk = k
    · subst hp
      rw [if_pos (rfl : ((pk, pv) : κ × β).1 = pk)]
      rw [alookup_cons, if_pos rfl]
      rw [alookup_cons, if_pos rfl] at h
      rw [Option.some.inj h]
    · rw [if_neg (hp : ¬((pk, pv) : κ × β).1 = k)]
      rw [alookup_cons, if_neg hp]
      rw [alookup_cons, if_neg hp] at h
      exact ih h

theorem alookup_map_update_ne {κ β : Type} [DecidableEq κ]
    (d : List (κ × β)) (k k' : κ) (f : β → β) (h : k' ≠ k) :
    alookup (d.map fun p => if p.1 = k then (p.1, f p.2) else p) k' = alookup d k' := by
  induction d with
  | nil => rfl
  | cons p t ih =>
    obtain ⟨pk, pv⟩ := p
    rw [List.map_cons]
    by_cases hp : pk = k
    · have hne : ¬pk = k' := fun he => h (he ▸ hp)
      subst hp
      rw [if_pos (rfl : ((pk, pv) : κ × β).1 = pk)]
      rw [alookup_cons, if_neg hne, alookup_cons, if_neg hne]
      exact ih
    · rw [if_neg (hp : ¬((pk, pv) : κ × β).1 = k)]
      rw [alookup_cons, alookup_cons]
      by_cases hq : pk = k'
      · rw [if_pos hq, if_pos hq]
      · rw [if_neg hq, if_neg hq]
        exact ih

/-- Keys (with order and multiplicity) survive a value-transforming update. -/
theorem keys_map_update {κ β : Type} [DecidableEq κ]
    (d : List (κ × β)) (k : κ) (f : β → β) :
    (d.map fun p => if p.1 = k then (p.1, f p.2) else p).map Prod.fst =
      d.map Prod.fst := by
  induction d with
  | nil => rfl
  | cons p t ih =>
    obtain ⟨pk, pv⟩ := p
    by_cases hp : pk = k <;> simp [hp, ih]

/-- Association lists with the same duplicate-free key sequence and the same
lookups are equal. -/
theorem assoc_ext {κ β : Type} [DecidableEq κ] :
    ∀ {d d' : List (κ × β)}, d.map Prod.fst = d'.map Prod.fst →
      (d.map Prod.fst).Nodup → (∀ k, alookup d k = alookup d' k) → d = d'
  | [], [], _, _, _ => rfl
  | [], q :: t', hk, _, _ => by simp at hk
  | p :: t, [], hk, _, _ => by simp at hk
  | (pk, pv) :: t, (qk, qv) :: t', hk, hnd, hl => by
    simp only [List.map_cons, List.cons.injEq] at hk
    obtain ⟨hkey, hkeys⟩ := hk
    subst hkey
    have h1 := hl pk
    simp only [alookup, if_pos rfl] at h1
    obtain rfl : pv = qv := Option.some.inj h1
    have hnotin : pk ∉ t.map Prod.fst := (List.nodup_cons.mp hnd).1
    refine congrArg _ (assoc_ext hkeys (List.nodup_cons.mp hnd).2 fun k => ?_)
    by_cases hkp : pk = k
    · subst hkp
      rw [alookup_eq_none_of_not_mem_keys hnotin,
        alookup_eq_none_of_not_mem_keys (hkeys ▸ hnotin)]
    · have h2 := hl k
      simpa only [alookup, hkp, if_false] using h2

/-! Order facts for the Python string comparison, needed for sortedness of
the discovery output. -/

theorem lexLe_total : ∀ a b : List Char, lexLe a b = true ∨ lexLe b a = true
  | [], _ => .inl rfl
  | _ :: _, [] => .inr rfl
  | a :: as, b :: bs => by
    by_cases hab : a = b
    · subst hab
      simpa [lexLe] using lexLe_total as bs
    · rcases lt_or_gt_of_ne hab with h | h
      · exact .inl (by simp [lexLe, hab, h])
      · have hba : ¬b = a := fun he => hab he.symm
        exact .inr (by simp [lexLe, hba, h])

theorem lexLe_trans :
    ∀ a b c : List Char, lexLe a b = true → lexLe b c = true → lexLe a c = true
  | [], _, _, _, _ => rfl
  | _ :: _, [], _, hab, _ => by simp [lexLe] at hab
  | _ :: _, _ :: _, [], _, hbc => by simp [lexLe] at hbc
  | a :: as, b :: bs, c :: cs, hab, hbc => by
    by_cases h1 : a = b <;> by_cases h2 : b = c
    · subst h1; subst h2
      simp only [lexLe, if_pos rfl] at hab hbc ⊢
      exact lexLe_trans as bs cs hab hbc
    · subst h1
      simp only [lexLe, h2, if_false, if_neg h2] at hbc ⊢
      exact hbc
    · subst h2
      simp only [lexLe, h1, if_false, if_neg h1] at hab ⊢
      exact hab
    · simp only [lexLe, h1, h2, if_false, decide_eq_true_eq] at hab hbc
      have hac : a < c := lt_trans hab hbc
      simp [lexLe, ne_of_lt hac, hac]

instance : IsTotal String pyStrLe :=
  ⟨fun a b => lexLe_total a.data b.data⟩

instance : IsTrans String pyStrLe :=
  ⟨fun a b c => lexLe_trans a.data b.data c.data⟩

/-! Monadic traversal facts in the `Except` monad. -/

theorem mapM_ok_length {ε α β : Type} (f : α → Except ε β) :
    ∀ (l : List α) (bs : List β), l.mapM f = Except.ok bs → bs.length = l.length
  | [], bs, h => by
    simp only [List.mapM_nil] at h
    cases h; rfl
  | a :: l, bs, h => by
    rw [List.mapM_cons] at h
    cases hfa : f a with
    | error e => rw [hfa] at h; exact absurd h (by simp [Bind.bind, Except.bind])
    | ok b =>
      rw [hfa] at h
      cases hl : l.mapM f with
      | error e => rw [hl] at h; exact absurd h (by simp [Bind.bind, Except.bind])
      | ok t =>
        rw [hl] at h
        simp only [Bind.bind, Except.bind, pure, Except.pure, Except.ok.injEq] at h
        subst h
        simp [mapM_ok_length f l t hl]

theorem mapM_ok_of_forall {ε α β : Type} (f : α → Except ε β) :
    ∀ l : List α, (∀ x ∈ l, ∃ b, f x = Except.ok b) →
      ∃ bs, l.mapM f = Except.ok bs ∧ bs.length = l.length ∧
        ∀ (i : Nat) (x : α), l.get? i = some x →
          ∃ b, bs.get? i = some b ∧ f x = Except.ok b
  | [], _ => ⟨[], rfl, rfl, by simp⟩
  | a :: l, h => by
    obtain ⟨b, hb⟩ := h a (List.mem_cons_self a l)
    obtain ⟨bs, hbs, hlen, hpt⟩ :=
      mapM_ok_of_forall f l fun x hx => h x (List.mem_cons_of_mem a hx)
    refine ⟨b :: bs, ?_, by simp [hlen], ?_⟩
    · rw [List.mapM_cons, hb, hbs]
      simp [Bind.bind, Except.bind, pure, Except.pure]
    · intro i x hx
      cases i with
      | zero => exact ⟨b, rfl, by cases hx; exact hb⟩
      | succ j => exact hpt j x hx

theorem mapM_error_of_exists {ε α β : Type} (f : α → Except ε β) (e : ε)
    (herr : ∀ x e', f x = Except.error e' → e' = e) :
    ∀ l : List α, (∃ x ∈ l, ∀ b, f x ≠ Except.ok b) →
      l.mapM f = Except.error e
  | [], h => by simp at h
  | a :: l, h => by
    rw [List.mapM_cons]
    cases hfa : f a with
    | error e' =>
      rw [herr a e' hfa]
      simp [Bind.bind, Except.bind]
    | ok b =>
      obtain ⟨x, hx, hne⟩ := h
      rcases List.mem_cons.mp hx with he | hxl
      · exact absurd hfa (he ▸ hne b)
      · rw [mapM_error_of_exists f e herr l ⟨x, hxl, hne⟩]
        simp [Bind.bind, Except.bind]

theorem mem_keys_of_alookup_eq_some {κ β : Type} [DecidableEq κ] :
    ∀ {d : List (κ × β)} {k : κ} {b : β}, alookup d k = some b →
      k ∈ d.map Prod.fst
  | [], _, _, h => by simp [alookup] at h
  | (pk, pv) :: t, k, b, h => by
    rw [alookup_cons] at h
    rw [List.map_cons, List.mem_cons]
    by_cases hp : pk = k
    · exact .inl hp.symm
    · rw [if_neg hp] at h
      exact .inr (mem_keys_of_alookup_eq_some h)

/-- When the version is a key of the mega dict, `megaSetRes` succeeds and is
the in-place entry update. -/
theorem megaSetRes_ok {mega : List (String × CalEntry)} {v : String} {e : CalEntry}
    (h : alookup mega v = some e) (r : List (String × Option ComRecord)) :
    megaSetRes mega v r =
      Except.ok (mega.map fun p =>
        if p.1 = v then (p.1, setRes r p.2) else p) := by
  unfold megaSetRes
  rw [if_pos ((any_key_eq_iff_mem_keys mega v).mpr (mem_keys_of_alookup_eq_some h))]

/-- The `scan_results` write loop: with duplicate-free version labels that
are all keys of the mega dict, the fold succeeds and each written version's
entry carries its own `tripleRes`, every other entry staying untouched. -/
theorem calFold_ok :
    ∀ (l : List (String × (Option ComRecord × Option ComRecord × Option ComRecord)))
      (mega : List (String × CalEntry)),
      (∀ p ∈ l, p.1 ∈ mega.map Prod.fst) →
      (l.map Prod.fst).Nodup →
      ∃ mega',
        l.foldlM (fun m p => megaSetRes m p.1 (tripleRes p.2)) mega =
          Except.ok mega' ∧
        mega'.map Prod.fst = mega.map Prod.fst ∧
        ∀ k,
          alookup mega' k =
            match alookup l k with
            | some c => (alookup mega k).map (setRes (tripleRes c))
            | none => alookup mega k
  | [], mega, _, _ => ⟨mega, rfl, rfl, fun k => by simp [alookup]⟩
  | (v₀, c₀) :: l, mega, hmem, hnd => by
    have hv₀ : v₀ ∈ mega.map Prod.fst := hmem _ (List.mem_cons_self _ _)
    obtain ⟨e₀, he₀⟩ := alookup_eq_some_of_mem_keys hv₀
    have hnd' : (((v₀, c₀) :: l).map Prod.fst).Nodup := hnd
    rw [List.map_cons, List.nodup_cons] at hnd'
    have hkeys₁ :
        (mega.map fun p =>
          if p.1 = v₀ then (p.1, setRes (tripleRes c₀) p.2) else p).map
            Prod.fst = mega.map Prod.fst :=
      keys_map_update mega v₀ (setRes (tripleRes c₀))
    have hmem' : ∀ p ∈ l,
        p.1 ∈ (mega.map fun p =>
          if p.1 = v₀ then (p.1, setRes (tripleRes c₀) p.2) else p).map
            Prod.fst := fun p hp =>
      hkeys₁ ▸ hmem p (List.mem_cons_of_mem _ hp)
    obtain ⟨mega', hfold, hkeys, hchar⟩ :=
      calFold_ok l
        (mega.map fun p =>
          if p.1 = v₀ then (p.1, setRes (tripleRes c₀) p.2) else p)
        hmem' hnd'.2
    refine ⟨mega', ?_, hkeys.trans hkeys₁, ?_⟩
    · rw [List.foldlM_cons]
      show (megaSetRes mega v₀ (tripleRes c₀) >>= fun m =>
        l.foldlM (fun m p => megaSetRes m p.1 (tripleRes p.2)) m) = Except.ok mega'
      rw [megaSetRes_ok he₀ (tripleRes c₀)]
      simpa [Bind.bind, Except.bind] using hfold
    · intro k
      have hchar' := hchar k
      by_cases hk : v₀ = k
      · subst hk
        rw [alookup_eq_none_of_not_mem_keys hnd'.1] at hchar'
        rw [alookup_cons, if_pos rfl, hchar',
          alookup_map_update_self _ he₀, he₀]
        rfl
      · rw [alookup_cons, if_neg hk]
        rw [alookup_map_update_ne mega v₀ k _ fun he => hk he.symm] at hchar'
        exact hchar'

theorem alookup_zip_of_get {β : Type} :
    ∀ (vs : List String) (cs : List β) (i : Nat) (v : String) (c : β),
      vs.Nodup → vs.get? i = some v → cs.get? i = some c →
      alookup (vs.zip cs) v = some c
  | [], _, i, _, _, _, hv, _ => by simp at hv
  | _ :: _, [], i, _, _, _, _, hc => by cases i <;> simp at hc
  | v₀ :: vs, c₀ :: cs, 0, v, c, _, hv, hc => by
    cases hv; cases hc
    rw [List.zip_cons_cons, alookup_cons, if_pos rfl]
  | v₀ :: vs, c₀ :: cs, i + 1, v, c, hnd, hv, hc => by
    rw [List.get?_cons_succ] at hv hc
    have hne : v₀ ≠ v := fun he =>
      (List.nodup_cons.mp hnd).1 (he ▸ List.get?_mem hv)
    rw [List.zip_cons_cons, alookup_cons, if_neg hne]
    exact alookup_zip_of_get vs cs i v c (List.nodup_cons.mp hnd).2 hv hc

/-- The full effect of one `HstCalScanner.scan_results` call under the
well-formedness the constructor establishes: the call returns normally and
the new mega re-binds exactly the scanned versions' `res` dicts. -/
theorem calScanResults_ok_char
    (fs : String → Option ComRecord) (st : CalScanner) (vs : List String)
    (hv : st.versions = some vs) (hnd : vs.Nodup)
    (hlen : vs.length = st.datapaths.length)
    (hkeys : st.mega.map Prod.fst = vs) :
    ∃ mega',
      calScanResults fs st = Except.ok { st with mega := mega' } ∧
      mega'.map Prod.fst = vs ∧
      ∀ k, alookup mega' k =
        match alookup (vs.zip (st.datapaths.map (loadComObjects fs))) k with
        | some c => (alookup st.mega k).map (setRes (tripleRes c))
        | none => alookup st.mega k := by
  have hclen : (st.datapaths.map (loadComObjects fs)).length = vs.length := by
    rw [List.length_map, hlen]
  have hlkeys : ((vs.zip (st.datapaths.map (loadComObjects fs))).map Prod.fst) = vs :=
    List.map_fst_zip _ _ (le_of_eq hclen.symm)
  obtain ⟨mega', hfold, hkeys', hchar⟩ :=
    calFold_ok (vs.zip (st.datapaths.map (loadComObjects fs))) st.mega
      (fun p hp => by
        rw [hkeys]
        exact (List.of_mem_zip hp).1)
      (by rw [hlkeys]; exact hnd)
  refine ⟨mega', ?_, hkeys'.trans hkeys, hchar⟩
  simp only [calScanResults, hv]
  rw [if_neg (by rw [hclen]; exact lt_irrefl _)]
  rw [hfold]
  rfl

theorem alookup_tripleRes_mem_bin
    (c : Option ComRecord × Option ComRecord × Option ComRecord) :
    alookup (tripleRes c) "mem_bin" = some c.1 := by
  simp [tripleRes, alookup]

theorem alookup_tripleRes_memory
    (c : Option ComRecord × Option ComRecord × Option ComRecord) :
    alookup (tripleRes c) "memory" = some c.2.1 := by
  simp [tripleRes, alookup]

theorem alookup_tripleRes_wallclock
    (c : Option ComRecord × Option ComRecord × Option ComRecord) :
    alookup (tripleRes c) "wallclock" = some c.2.2 := by
  simp [tripleRes, alookup]

/-- C2: for every run and every declared ResultKind of the HstCal family,
`scan_results` returns normally (never raises) and stores in the MegaIndex,
under that run's version and that kind, exactly the outcome of the
ResultRecord loader for that run's bundle path — `some none` (an explicit
Absent entry) whenever the backing bundle is missing or unparseable, the
loaded record otherwise.  Every slot is a function of its own bundle path
alone, so one run's missing or bad bundle cannot abort or alter the
loading of any other run or kind.  The loader itself is modelled from the
spec (§4.2), since `spacekit/analyzer/compute.py` is not among the sources
(see `loadComputeObject`).  The hypotheses are the well-formedness facts the
constructor establishes: versions assigned, duplicate-free, one per
discovered run, and the mega skeleton keyed exactly by the versions. -/
theorem calScanResults_stores_loader_outcome
    (fs : String → Option ComRecord) (st : CalScanner) (vs : List String)
    (hv : st.versions = some vs) (hnd : vs.Nodup)
    (hlen : vs.length = st.datapaths.length)
    (hkeys : st.mega.map Prod.fst = vs) :
    ∃ st', calScanResults fs st = Except.ok st' ∧
      ∀ i d v, st.datapaths.get? i = some d → vs.get? i = some v →
        calMegaRes st' v "mem_bin" =
            some (loadComputeObject fs (resPath d "mem_bin")) ∧
        calMegaRes st' v "memory" =
            some (loadComputeObject fs (resPath d "memory")) ∧
        calMegaRes st' v "wallclock" =
            some (loadComputeObject fs (resPath d "wallclock")) := by
  obtain ⟨mega', hok, hkeys', hchar⟩ :=
    calScanResults_ok_char fs st vs hv hnd hlen hkeys
  refine ⟨_, hok, ?_⟩
  intro i d v hd hv'
  have hc : (st.datapaths.map (loadComObjects fs)).get? i =
      some (loadComObjects fs d) := by
    rw [List.get?_map, hd]
    rfl
  have hzip : alookup (vs.zip (st.datapaths.map (loadComObjects fs))) v =
      some (loadComObjects fs d) :=
    alookup_zip_of_get vs _ i v _ hnd hv' hc
  have hmem : v ∈ st.mega.map Prod.fst := by
    rw [hkeys]
    exact List.get?_mem hv'
  obtain ⟨e, he⟩ := alookup_eq_some_of_mem_keys hmem
  have hm' : alookup mega' v = some (setRes (tripleRes (loadComObjects fs d)) e) := by
    have := hchar v
    rw [hzip] at this
    rw [this, he]
    rfl
  refine ⟨?_, ?_, ?_⟩ <;>
    simp only [calMegaRes, hm', setRes, alookup_tripleRes_mem_bin,
      alookup_tripleRes_memory, alookup_tripleRes_wallclock, loadComObjects]

/-- C3: `scan_results` is idempotent: on an unchanged filesystem a second
invocation returns the very same scanner state — same versions, same
per-kind records, nothing accumulated — because each version's `res` dict
is re-bound to a freshly loaded value that only depends on the (unchanged)
datapaths and disk contents.  Hypotheses as in the scan theorem: the
well-formedness the constructor establishes. -/
theorem calScanResults_idempotent
    (fs : String → Option ComRecord) (st st₁ : CalScanner) (vs : List String)
    (hv : st.versions = some vs) (hnd : vs.Nodup)
    (hlen : vs.length = st.datapaths.length)
    (hkeys : st.mega.map Prod.fst = vs)
    (h1 : calScanResults fs st = Except.ok st₁) :
    calScanResults fs st₁ = Except.ok st₁ := by
  obtain ⟨mega₁, hok₁, hkeys₁, hchar₁⟩ :=
    calScanResults_ok_char fs st vs hv hnd hlen hkeys
  rw [h1] at hok₁
  obtain rfl : st₁ = { st with mega := mega₁ } := Except.ok.inj hok₁
  obtain ⟨mega₂, hok₂, hkeys₂, hchar₂⟩ :=
    calScanResults_ok_char fs { st with mega := mega₁ } vs hv hnd hlen hkeys₁
  have hmega : mega₂ = mega₁ := by
    refine assoc_ext (hkeys₂.trans hkeys₁.symm) (by rw [hkeys₂]; exact hnd) ?_
    intro k
    have h2 := hchar₂ k
    have h1' := hchar₁ k
    cases hl : alookup (vs.zip (st.datapaths.map (loadComObjects fs))) k with
    | none =>
      rw [hl] at h2 h1'
      rw [h2]
    | some c =>
      rw [hl] at h2 h1'
      rw [h2, h1']
      cases alookup st.mega k <;> rfl
  rw [hok₂, hmega]

/-- Inverting a successful `MegaScanner.__init__`. -/
theorem mkMegaScanner_ok_inv {plotly : Bool} {gm : List String} {p : Int}
    {st : ScannerInit} (h : mkMegaScanner plotly gm p = Except.ok st) :
    plotly = true ∧
    st.datapaths = discover gm ∧
    st.datasets = (discover gm).map (fun d => lastSegment d '/') ∧
    ((discover gm).map (fun d => lastSegment d '/')).mapM parseTimestamp =
      Except.ok st.timestamps ∧
    st.dates = st.datasets.map (fun v => pyTake v 10) ∧
    st.primary = p := by
  simp only [mkMegaScanner] at h
  cases hts : ((discover gm).map fun d => lastSegment d '/').mapM parseTimestamp with
  | error e =>
    rw [hts] at h
    exact absurd h (by simp [Bind.bind, Except.bind])
  | ok ts =>
    rw [hts] at h
    cases plotly with
    | false => exact absurd h (by simp [Bind.bind, Except.bind])
    | true =>
      simp only [Bind.bind, Except.bind, Bool.not_true, Bool.false_eq_true,
        if_false, Except.ok.injEq] at h
      subst h
      exact ⟨rfl, rfl, rfl, rfl, rfl, rfl⟩

/-- The length bookkeeping of a successful construction: one dataset name,
one timestamp and one date per discovered run. -/
theorem mkMegaScanner_ok_lengths {plotly : Bool} {gm : List String} {p : Int}
    {st : ScannerInit} (h : mkMegaScanner plotly gm p = Except.ok st) :
    st.datasets.length = st.datapaths.length ∧
    st.timestamps.length = st.datapaths.length ∧
    st.dates.length = st.datapaths.length := by
  obtain ⟨-, hdp, hds, hts, hdt, -⟩ := mkMegaScanner_ok_inv h
  have h1 : st.datasets.length = st.datapaths.length := by
    rw [hds, hdp, List.length_map]
  have h2 : st.timestamps.length = st.datapaths.length := by
    have := mapM_ok_length parseTimestamp _ _ hts
    rw [List.length_map] at this
    rw [this, hdp]
  have h3 : st.dates.length = st.datapaths.length := by
    rw [hdt, List.length_map, h1]
  exact ⟨h1, h2, h3⟩

theorem map_entry_fst (rk : List (String × Option ComRecord)) :
    ∀ l : List (String × String × Int),
      (l.map fun p =>
        (p.1, { date := p.2.1, time := p.2.2, res := rk : CalEntry })).map
          Prod.fst = l.map Prod.fst
  | [] => rfl
  | a :: t => by simp [map_entry_fst rk t]

theorem map_entry_date (rk : List (String × Option ComRecord)) :
    ∀ l : List (String × String × Int),
      (l.map fun p =>
        (p.1, { date := p.2.1, time := p.2.2, res := rk : CalEntry })).map
          (fun q => q.2.date) = l.map fun p => p.2.1
  | [] => rfl
  | a :: t => by simp [map_entry_date rk t]

/-- Projecting the first component of the second component over a zip. -/
theorem map_snd_fst_zip {α β γ : Type} (l₁ : List α) (l₂ : List (β × γ))
    (h : l₂.length ≤ l₁.length) :
    (l₁.zip l₂).map (fun p => p.2.1) = l₂.map Prod.fst := by
  have hm := List.map_snd_zip l₁ l₂ h
  calc (l₁.zip l₂).map (fun p => p.2.1)
      = ((l₁.zip l₂).map Prod.snd).map Prod.fst := by rw [List.map_map]; rfl
    _ = l₂.map Prod.fst := by rw [hm]

/-- C4: on a successful construction with no explicit labels, the version
labels assigned by `make_mega` are `v0 .. v(N-1)`, keyed in ascending
sorted-path order over the `N` discovered runs, and each run's date is the
first 10 characters of its directory's final path component.  The mega
entries carry these dates in the same sorted order.  (`calMakeMega` is the
`make_mega` body; `rk` is whatever `res_keys` dict the family fixed.) -/
theorem versions_dates_of_construction
    (plotly : Bool) (gm : List String) (p : Int) (st : ScannerInit)
    (h : mkMegaScanner plotly gm p = Except.ok st) :
    st.datapaths = discover gm ∧
    List.Sorted pyStrLe st.datapaths ∧
    st.datapaths.Perm gm ∧
    st.dates = st.datapaths.map (fun d => pyTake (lastSegment d '/') 10) ∧
    ∀ rk,
      (calMakeMega none st.dates st.timestamps rk).1 =
        (if st.datapaths.length = 0 then none
         else some (autoVersions st.datapaths.length)) ∧
      ((calMakeMega none st.dates st.timestamps rk).2).map Prod.fst =
        autoVersions st.datapaths.length ∧
      ((calMakeMega none st.dates st.timestamps rk).2).map
          (fun q => q.2.date) = st.dates := by
  obtain ⟨-, hdp, hds, -, hdt, -⟩ := mkMegaScanner_ok_inv h
  obtain ⟨h1, h2, h3⟩ := mkMegaScanner_ok_lengths h
  have hsorted : List.Sorted pyStrLe st.datapaths := by
    rw [hdp]
    exact List.sorted_insertionSort pyStrLe gm
  have hperm : st.datapaths.Perm gm := by
    rw [hdp]
    exact List.perm_insertionSort pyStrLe gm
  have hdates : st.dates = st.datapaths.map fun d => pyTake (lastSegment d '/') 10 := by
    rw [hdt, hds, hdp, List.map_map]
    rfl
  refine ⟨hdp, hsorted, hperm, hdates, ?_⟩
  intro rk
  have hzlen : (st.dates.zip st.timestamps).length = st.datapaths.length := by
    rw [List.length_zip, h2, h3, min_self]
  have hauto : (autoVersions (st.dates.zip st.timestamps).length).length =
      (st.dates.zip st.timestamps).length := by
    simp [autoVersions]
  refine ⟨?_, ?_, ?_⟩
  · simp only [calMakeMega, assignVersions, hzlen]
  · simp only [calMakeMega]
    rw [map_entry_fst, List.map_fst_zip _ _ (le_of_eq hauto), hzlen]
  · simp only [calMakeMega]
    rw [map_entry_date, map_snd_fst_zip _ _ (le_of_eq hauto.symm),
      List.map_fst_zip _ _ (by rw [h2, h3])]

/-- Python `xs[-1]` is the last element. -/
theorem pyIndex_neg_one {α : Type} (xs : List α) (d : α)
    (h : xs.getLast? = some d) : pyIndex xs (-1) = Except.ok d := by
  have hlen : 0 < xs.length := by
    cases xs with
    | nil => exact absurd h (by simp)
    | cons a t => simp
  rw [List.getLast?_eq_get?] at h
  have hadj : pyAdjust xs.length (-1) = (xs.length : Int) - 1 := by
    unfold pyAdjust
    rw [if_pos (by decide : (-1 : Int) < 0)]
    omega
  have hcond : 0 ≤ pyAdjust xs.length (-1) ∧
      pyAdjust xs.length (-1) < xs.length := by
    rw [hadj]
    constructor <;> omega
  unfold pyIndex
  rw [dif_pos hcond]
  have htn : (pyAdjust xs.length (-1)).toNat = xs.length - 1 := by
    rw [hadj]
    omega
  have h2 : xs.get? ((pyAdjust xs.length (-1)).toNat) = some d := by
    rw [htn]
    exact h
  rw [List.get?_eq_get (by omega : (pyAdjust xs.length (-1)).toNat < xs.length)]
    at h2
  exact congrArg Except.ok (Option.some.inj h2)

/-- C5 (amended): `select_dataset` returns `None` when zero runs were
discovered, and falls back to the default index `-1` (the most recent run)
with a warning when the requested index *strictly exceeds* the number of
discovered runs — e.g. `primary=99` with 3 runs returns the 3rd run's
dataset path.  But the guard is `self.primary > len(self.datapaths)` with a
strict `>` and no lower bound, so a requested index *equal* to the number
of runs (and likewise one below `-len`) is passed straight to the list
access and raises `IndexError` — `select_dataset` is not raise-free for
every integer argument. -/
theorem selectDataset_fallback_and_none
    (fsCsv : String → List String) (st : ScannerInit) (n : Int) :
    (st.datapaths.length = 0 →
      ∃ q, selectDataset fsCsv st (some n) = Except.ok (q, none)) ∧
    (0 < st.datapaths.length → (st.datapaths.length : Int) < n →
      ∀ d c cs, st.datapaths.getLast? = some d → fsCsv d = c :: cs →
        selectDataset fsCsv st (some n) = Except.ok (-1, some c)) ∧
    (0 < st.datapaths.length → n = (st.datapaths.length : Int) →
      selectDataset fsCsv st (some n) = Except.error PyError.indexError) := by
  refine ⟨?_, ?_, ?_⟩
  · intro hlen
    simp only [selectDataset, hlen]
    exact ⟨_, rfl⟩
  · intro hpos hgt d c cs hlast hcsv
    have hn0 : n ≠ 0 := by omega
    simp only [selectDataset, if_pos hn0, if_pos hgt, if_pos hpos,
      pyIndex_neg_one st.datapaths d hlast]
    show (Except.ok d >>= fun dpath =>
      match fsCsv dpath with
      | [] => Except.error PyError.indexError
      | c :: _ => Except.ok (-1, some c)) = _
    show (match fsCsv d with
      | [] => Except.error PyError.indexError
      | c :: _ => Except.ok (-1, some c)) = _
    rw [hcsv]
  · intro hpos heq
    have hn0 : n ≠ 0 := by omega
    have hngt : ¬n > (st.datapaths.length : Int) := by omega
    have hadj : pyAdjust st.datapaths.length n = n := by
      unfold pyAdjust
      rw [if_neg (by omega : ¬n < 0)]
    have hidx : pyIndex st.datapaths n = Except.error PyError.indexError := by
      unfold pyIndex
      rw [dif_neg (by rw [hadj]; omega)]
    simp only [selectDataset, if_pos hn0, if_neg hngt, if_pos hpos, hidx]
    rfl

/-- Building one version's score column succeeds with that version as the
column label whenever the version's record for the target is present. -/
theorem scoreColumn_ok_of_present
    (st : CalScanner) (metric : String) (v : String)
    (e : CalEntry) (r : ComRecord)
    (he : alookup st.mega v = some e)
    (hr : alookup e.res st.target = some (some r)) :
    scoreColumn st metric v =
      Except.ok (v, if metric = "acc_loss" then r.acc_loss else r.loss) := by
  simp only [scoreColumn, he, hr, Bind.bind, Except.bind]

/-- C6 (amended): when *every* version's record for the target kind is
present, `compare_scores` returns a table with exactly one column per
discovered version, in version order, none omitted.  But an Absent record
is dereferenced with no guard (`.acc_loss` on `None`), so a version whose
record is Absent makes `compare_scores` raise `AttributeError` instead of
contributing a column of missing values (see the counterexample). -/
theorem compareScores_columns_when_present
    (st : CalScanner) (metric : String) (vs : List String)
    (hv : st.versions = some vs) (hne : vs ≠ [])
    (hpres : ∀ v ∈ vs, ∃ e r, alookup st.mega v = some e ∧
      alookup e.res st.target = some (some r)) :
    ∃ cols, compareScores st metric = Except.ok cols ∧
      cols.map Prod.fst = vs := by
  have hall : ∀ v ∈ vs, ∃ b, scoreColumn st metric v = Except.ok b := by
    intro v hvm
    obtain ⟨e, r, he, hr⟩ := hpres v hvm
    exact ⟨_, scoreColumn_ok_of_present st metric v e r he hr⟩
  obtain ⟨cols, hm, hlen, hpt⟩ := mapM_ok_of_forall _ vs hall
  have hfst : cols.map Prod.fst = vs := by
    apply List.ext
    intro i
    rw [List.get?_map]
    cases hvi : vs.get? i with
    | none =>
      have : cols.get? i = none := by
        rw [List.get?_eq_none] at hvi ⊢
        omega
      rw [this]
      rfl
    | some v =>
      obtain ⟨b, hb, hfb⟩ := hpt i v hvi
      obtain ⟨e, r, he, hr⟩ := hpres v (List.get?_mem hvi)
      have := scoreColumn_ok_of_present st metric v e r he hr
      rw [this] at hfb
      obtain rfl := Except.ok.inj hfb
      rw [hb]
      rfl
  refine ⟨cols, ?_, hfst⟩
  have hcne : cols.isEmpty = false := by
    cases cols with
    | nil =>
      exact absurd (hfst.symm : vs = []) hne
    | cons a t => rfl
  simp only [compareScores, hv, hm, Bind.bind, Except.bind, hcne,
    Bool.false_eq_true, if_false]

/-- C7 (amended): the confusion-matrix bundle built by `make_clf_plots`
contains the matrices of *all* discovered versions in version order —
versions with Absent records are not omitted: the loop dereferences every
version's record, so any Absent record for the target raises
`AttributeError` and no bundle is built (see the counterexample).  When all
records are present the `triple_cmx` subtitle list — always the full
version list — is aligned 1:1 with the matrices precisely because there is
one matrix per version. -/
theorem cmxBundle_all_versions
    (st : CalScanner) (target : String) (vs : List String)
    (hv : st.versions = some vs)
    (hpres : ∀ v ∈ vs, ∃ r, clfRecord st target v = Except.ok r) :
    ∃ recs : List ComRecord, makeClfPlots st target =
        Except.ok { normalized := recs.map ComRecord.cmx_norm,
                    counts := recs.map ComRecord.cmx } ∧
      recs.length = vs.length ∧
      (∀ i v, vs.get? i = some v →
        ∃ r, recs.get? i = some r ∧ clfRecord st target v = Except.ok r) ∧
      tripleCmx vs (recs.map ComRecord.cmx_norm) = (vs, vs.length) := by
  obtain ⟨recs, hm, hlen, hpt⟩ := mapM_ok_of_forall _ vs hpres
  refine ⟨recs, ?_, hlen, hpt, ?_⟩
  · simp only [makeClfPlots, hv, hm, Bind.bind, Except.bind]
  · simp [tripleCmx, hlen]

/-- C8 (amended): a discovered directory whose name's trailing token after
the last hyphen is not parseable as an integer makes `int()` raise
`ValueError` inside `__init__`, aborting construction entirely — the
malformed entry is not skipped and the remaining well-formed directories
are not discovered or versioned.  When every discovered name parses,
construction succeeds (with plotly present). -/
theorem discovery_aborts_on_malformed (gm : List String) (p : Int) :
    ((∃ t ∈ (discover gm).map fun d => lastSegment d '/',
        pyInt (lastSegment t '-') = none) →
      mkMegaScanner true gm p = Except.error PyError.valueError) ∧
    ((∀ t ∈ (discover gm).map fun d => lastSegment d '/',
        (pyInt (lastSegment t '-')).isSome) →
      ∃ st, mkMegaScanner true gm p = Except.ok st) := by
  constructor
  · rintro ⟨t, ht, hbad⟩
    have herr : ((discover gm).map fun d => lastSegment d '/').mapM
        parseTimestamp = Except.error PyError.valueError := by
      apply mapM_error_of_exists parseTimestamp PyError.valueError
      · intro x e' hx
        unfold parseTimestamp at hx
        cases hpx : pyInt (lastSegment x '-') with
        | some m => rw [hpx] at hx; exact absurd hx (by simp)
        | none => rw [hpx] at hx; exact (Except.error.inj hx).symm
      · refine ⟨t, ht, fun b hb => ?_⟩
        unfold parseTimestamp at hb
        rw [hbad] at hb
        exact Except.noConfusion hb
    simp only [mkMegaScanner, herr, Bind.bind, Except.bind]
  · intro hgood
    have hall : ∀ x ∈ (discover gm).map fun d => lastSegment d '/',
        ∃ b, parseTimestamp x = Except.ok b := by
      intro x hx
      obtain ⟨m, hm⟩ := Option.isSome_iff_exists.mp (hgood x hx)
      exact ⟨m, by unfold parseTimestamp; rw [hm]⟩
    obtain ⟨ts, hts, -, -⟩ := mapM_ok_of_forall _ _ hall
    refine ⟨⟨discover gm, (discover gm).map fun d => lastSegment d '/', ts,
      ((discover gm).map fun d => lastSegment d '/').map fun v => pyTake v 10,
      p⟩, ?_⟩
    simp only [mkMegaScanner, hts, Bind.bind, Except.bind, Bool.not_true,
      Bool.false_eq_true, if_false]

/-- C10 (amended): whenever plotly is not installed, constructing a Scanner
always fails, so no Scanner operation is reachable — but the raised error
is `ImportError` only when every discovered run name's timestamp parses:
the timestamp parsing of `__init__` runs *before* the plotly check, so a
malformed run name raises `ValueError` first (see the counterexample).
The family constructor (`HstCalScanner`) fails the same way, since it runs
the base `__init__` first. -/
theorem no_scanner_without_plotly (gm : List String) (p : Int) :
    (∃ e, mkMegaScanner false gm p = Except.error e) ∧
    ((∀ t ∈ (discover gm).map fun d => lastSegment d '/',
        (pyInt (lastSegment t '-')).isSome) →
      mkMegaScanner false gm p = Except.error PyError.importError) ∧
    ∀ fsCsv, ∃ e, mkHstCalScanner false fsCsv gm p = Except.error e := by
  have h1 : ∃ e, mkMegaScanner false gm p = Except.error e := by
    cases hts : ((discover gm).map fun d => lastSegment d '/').mapM
        parseTimestamp with
    | error e =>
      exact ⟨e, by simp only [mkMegaScanner, hts, Bind.bind, Except.bind]⟩
    | ok ts =>
      exact ⟨.importError, by simp only [mkMegaScanner, hts, Bind.bind,
        Except.bind, Bool.not_false, if_true]⟩
  refine ⟨h1, ?_, ?_⟩
  · intro hgood
    have hall : ∀ x ∈ (discover gm).map fun d => lastSegment d '/',
        ∃ b, parseTimestamp x = Except.ok b := by
      intro x hx
      obtain ⟨m, hm⟩ := Option.isSome_iff_exists.mp (hgood x hx)
      exact ⟨m, by unfold parseTimestamp; rw [hm]⟩
    obtain ⟨ts, hts, -, -⟩ := mapM_ok_of_forall _ _ hall
    simp only [mkMegaScanner, hts, Bind.bind, Except.bind, Bool.not_false,
      if_true]
  · intro fsCsv
    obtain ⟨e, he⟩ := h1
    exact ⟨e, by simp only [mkHstCalScanner, he, Bind.bind, Except.bind]⟩

/-! Facts about the dataset decoder. -/

theorem self_ne_append_key (s : String) : s ≠ s ++ "_key" := by
  intro he
  have hd := congrArg String.data he
  rw [String.data_append] at hd
  have hl := congrArg List.length hd
  rw [List.length_append] at hl
  simp at hl

theorem append_key_inj {a b : String} (h : a ++ "_key" = b ++ "_key") :
    a = b := by
  have hd := congrArg String.data h
  rw [String.data_append, String.data_append] at hd
  exact String.ext (List.append_cancel_right hd)

/-- One pair's row update touches only the companion column. -/
theorem rowDecodePair_preserves (key : String) (i : Int) (name : String)
    (row : Row) (c : String) (hc : c ≠ key ++ "_key") :
    alookup (rowDecodePair key i name row) c = alookup row c := by
  unfold rowDecodePair
  by_cases hg : alookup row key = some (Value.int i)
  · rw [if_pos hg]
    exact alookup_dictSet_ne row _ c _ hc
  · rw [if_neg hg]

/-- One decoder column's row updates touch only its companion column. -/
theorem rowDecode_preserves (key : String) (pairs : List (Int × String))
    (c : String) (hc : c ≠ key ++ "_key") :
    ∀ row : Row, alookup (rowDecode key pairs row) c = alookup row c := by
  induction pairs with
  | nil => intro row; rfl
  | cons p t ih =>
    intro row
    show alookup (rowDecode key t (rowDecodePair key p.1 p.2 row)) c = _
    rw [ih (rowDecodePair key p.1 p.2 row),
      rowDecodePair_preserves key p.1 p.2 row c hc]

/-- The whole decoding pass touches only the companion columns of the
decoder's keys. -/
theorem rowDecodeAll_preserves
    (dk : List (String × List (Int × String))) (c : String)
    (hc : ∀ kp ∈ dk, c ≠ kp.1 ++ "_key") :
    ∀ row : Row, alookup (rowDecodeAll dk row) c = alookup row c := by
  induction dk with
  | nil => intro row; rfl
  | cons kp t ih =>
    intro row
    show alookup (rowDecodeAll t (rowDecode kp.1 kp.2 row)) c = _
    rw [ih (fun kq hq => hc kq (List.mem_cons_of_mem kp hq)),
      rowDecode_preserves kp.1 kp.2 c (hc kp (List.mem_cons_self kp t))]

/-- A row whose `key` cell matches none of the pairs is left alone. -/
theorem rowDecode_no_match (key : String) (pairs : List (Int × String))
    (i : Int) :
    ∀ row : Row, alookup row key = some (Value.int i) →
      (∀ p ∈ pairs, p.1 ≠ i) → rowDecode key pairs row = row := by
  induction pairs with
  | nil => intro row _ _; rfl
  | cons p t ih =>
    intro row hrow hall
    have hg : ¬alookup row key = some (Value.int p.1) := by
      rw [hrow]
      intro he
      exact hall p (List.mem_cons_self p t) (Value.int.inj (Option.some.inj he)).symm
    show rowDecode key t (rowDecodePair key p.1 p.2 row) = row
    rw [show rowDecodePair key p.1 p.2 row = row from if_neg hg]
    exact ih row hrow fun q hq => hall q (List.mem_cons_of_mem p hq)

/-- After one decoder column's pass, a row whose `key` cell is the encoded
integer `i` carries the decode table's string for `i` in the companion
column (duplicate-free pair keys: each integer decodes to one string). -/
theorem rowDecode_companion (key : String) :
    ∀ (pairs : List (Int × String)) (row : Row) (i : Int) (name : String),
      (pairs.map Prod.fst).Nodup →
      alookup row key = some (Value.int i) →
      alookup pairs i = some name →
      alookup (rowDecode key pairs row) (key ++ "_key") =
        some (Value.str name) := by
  intro pairs
  induction pairs with
  | nil => intro row i name _ _ hpair; exact absurd hpair (by simp [alookup])
  | cons p t ih =>
    intro row i name hnd hrow hpair
    obtain ⟨i₀, n₀⟩ := p
    rw [alookup_cons] at hpair
    rw [List.map_cons, List.nodup_cons] at hnd
    by_cases hi : i₀ = i
    · subst hi
      rw [if_pos rfl] at hpair
      obtain rfl := Option.some.inj hpair
      show alookup (rowDecode key t (rowDecodePair key i₀ n₀ row))
        (key ++ "_key") = _
      have hset : rowDecodePair key i₀ n₀ row =
          dictSet row (key ++ "_key") (Value.str n₀) := if_pos hrow
      rw [hset]
      have hkey : alookup (dictSet row (key ++ "_key") (Value.str n₀)) key =
          some (Value.int i₀) := by
        rw [alookup_dictSet_ne row _ key _ (self_ne_append_key key)]
        exact hrow
      rw [rowDecode_no_match key t i₀ _ hkey
        (fun q hq he => hnd.1 (List.mem_map.mpr ⟨q, hq, he⟩))]
      exact alookup_dictSet_self row (key ++ "_key") (Value.str n₀)
    · rw [if_neg hi] at hpair
      have hg : ¬alookup row key = some (Value.int i₀) := by
        rw [hrow]
        intro he
        exact hi (Value.int.inj (Option.some.inj he)).symm
      show alookup (rowDecode key t (rowDecodePair key i₀ n₀ row))
        (key ++ "_key") = _
      rw [show rowDecodePair key i₀ n₀ row = row from if_neg hg]
      exact ih row i name hnd.2 hrow hpair

/-- After the whole decoding pass, every decoder column's companion holds
the decoded string of the row's encoded integer.  Hypotheses: decoder keys
are duplicate-free (they come from a Python dict), no decoder key is some
decoder key's companion (so no pass overwrites another's input or output),
and each pair table has duplicate-free integer keys (a Python dict too). -/
theorem rowDecodeAll_companion :
    ∀ (dk : List (String × List (Int × String))) (row : Row)
      (kp : String × List (Int × String)) (i : Int) (name : String),
      kp ∈ dk →
      (dk.map Prod.fst).Nodup →
      (∀ ka ∈ dk, ∀ kb ∈ dk, ka.1 ≠ kb.1 ++ "_key") →
      (kp.2.map Prod.fst).Nodup →
      alookup row kp.1 = some (Value.int i) →
      alookup kp.2 i = some name →
      alookup (rowDecodeAll dk row) (kp.1 ++ "_key") =
        some (Value.str name) := by
  intro dk
  induction dk with
  | nil => intro row kp i name hmem; exact absurd hmem (by simp)
  | cons kp₀ t ih =>
    intro row kp i name hmem hnd hnocomp hndp hrow hpair
    rw [List.map_cons, List.nodup_cons] at hnd
    rcases List.mem_cons.mp hmem with rfl | hmem'
    · show alookup (rowDecodeAll t (rowDecode kp.1 kp.2 row))
        (kp.1 ++ "_key") = _
      rw [rowDecodeAll_preserves t (kp.1 ++ "_key")
        (fun kb hkb he =>
          hnd.1 (append_key_inj he ▸ List.mem_map_of_mem Prod.fst hkb))]
      exact rowDecode_companion kp.1 kp.2 row i name hndp hrow hpair
    · show alookup (rowDecodeAll t (rowDecode kp₀.1 kp₀.2 row))
        (kp.1 ++ "_key") = _
      have hrow' : alookup (rowDecode kp₀.1 kp₀.2 row) kp.1 =
          some (Value.int i) := by
        rw [rowDecode_preserves kp₀.1 kp₀.2 kp.1
          (hnocomp kp hmem kp₀ (List.mem_cons_self kp₀ t))]
        exact hrow
      exact ih (rowDecode kp₀.1 kp₀.2 row) kp i name hmem' hnd.2
        (fun ka ha kb hb => hnocomp ka (List.mem_cons_of_mem kp₀ ha)
          kb (List.mem_cons_of_mem kp₀ hb))
        hndp hrow' hpair

/-- A successful `applyDecodePair` maps the rows by `rowDecodePair`. -/
theorem applyDecodePair_ok_rows {df df' : DataFrame} {key : String}
    {i : Int} {name : String}
    (h : applyDecodePair df key i name = Except.ok df') :
    df'.rows = df.rows.map (rowDecodePair key i name) := by
  unfold applyDecodePair at h
  by_cases hk : key ∈ df.cols
  · rw [if_pos hk] at h
    obtain rfl := Except.ok.inj h
    rfl
  · rw [if_neg hk] at h
    exact absurd h (by simp)

/-- A successful one-column decoding fold maps the rows by `rowDecode`. -/
theorem decode_fold_rows (key : String) :
    ∀ (pairs : List (Int × String)) (df df' : DataFrame),
      pairs.foldlM (fun df p => applyDecodePair df key p.1 p.2) df =
        Except.ok df' →
      df'.rows = df.rows.map (rowDecode key pairs) := by
  intro pairs
  induction pairs with
  | nil =>
    intro df df' h
    obtain rfl := Except.ok.inj h
    exact (List.map_id' _).symm
  | cons p t ih =>
    intro df df' h
    rw [List.foldlM_cons] at h
    cases ha : applyDecodePair df key p.1 p.2 with
    | error e =>
      rw [ha] at h
      exact absurd h (by simp [Bind.bind, Except.bind])
    | ok df₁ =>
      rw [ha] at h
      have h1 : t.foldlM (fun df p => applyDecodePair df key p.1 p.2) df₁ =
          Except.ok df' := h
      rw [ih df₁ df' h1, applyDecodePair_ok_rows ha, List.map_map]
      rfl

/-- A successful `decode_categorical` maps the rows by `rowDecodeAll`:
rows are decoded independently. -/
theorem decode_rows :
    ∀ (dk : List (String × List (Int × String))) (df df' : DataFrame),
      decode_categorical df dk = Except.ok df' →
      df'.rows = df.rows.map (rowDecodeAll dk) := by
  intro dk
  induction dk with
  | nil =>
    intro df df' h
    obtain rfl := Except.ok.inj h
    exact (List.map_id' _).symm
  | cons kp t ih =>
    intro df df' h
    unfold decode_categorical at h ih
    rw [List.foldlM_cons] at h
    cases ha : kp.2.foldlM (fun df p => applyDecodePair df kp.1 p.1 p.2) df with
    | error e =>
      rw [ha] at h
      exact absurd h (by simp [Bind.bind, Except.bind])
    | ok df₁ =>
      rw [ha] at h
      rw [ih df₁ df' h, decode_fold_rows kp.1 kp.2 df df₁ ha, List.map_map]
      rfl

/-- C9: for every dataframe and decode table, decoding adds for each listed
column `key` a companion column `{key}_key` whose value, on every row whose
encoded cell holds an integer listed in the table, is the table's string
for that integer — while the original encoded columns and every other
column that is not one of the `{key}_key` companions keep their values on
every row, and the row count is unchanged.  Hypotheses: the decoder and its
pair tables are Python dicts (duplicate-free keys) and no decoder column is
itself named like another's companion. -/
theorem decode_categorical_adds_companion
    (df : DataFrame) (dk : List (String × List (Int × String)))
    (df' : DataFrame)
    (hnocomp : ∀ ka ∈ dk, ∀ kb ∈ dk, ka.1 ≠ kb.1 ++ "_key")
    (hndk : (dk.map Prod.fst).Nodup)
    (hndp : ∀ kp ∈ dk, (kp.2.map Prod.fst).Nodup)
    (hok : decode_categorical df dk = Except.ok df') :
    df'.rows.length = df.rows.length ∧
    ∀ idx r r', df.rows.get? idx = some r → df'.rows.get? idx = some r' →
      (∀ c, (∀ kp ∈ dk, c ≠ kp.1 ++ "_key") → alookup r' c = alookup r c) ∧
      (∀ kp ∈ dk, ∀ i name, alookup r kp.1 = some (Value.int i) →
        alookup kp.2 i = some name →
        alookup r' (kp.1 ++ "_key") = some (Value.str name)) := by
  have hrows := decode_rows dk df df' hok
  constructor
  · rw [hrows, List.length_map]
  · intro idx r r' hr hr'
    have hsome : df'.rows.get? idx = some (rowDecodeAll dk r) := by
      rw [hrows, List.get?_map, hr]
      rfl
    rw [hsome] at hr'
    obtain rfl := Option.some.inj hr'
    refine ⟨fun c hc => rowDecodeAll_preserves dk c hc r, ?_⟩
    intro kp hkp i name h1 h2
    exact rowDecodeAll_companion dk r kp i name hkp hndk hnocomp
      (hndp kp hkp) h1 h2

/-! ## Claim-level theorems: sanity of the concrete scenarios, the
counterexamples, and the witnesses instantiating the general theorems. -/

/-- The concrete `__init__` state is what the constructor computes. -/
theorem exampleInit_is_constructed :
    mkMegaScanner true exampleGlob (-1) = Except.ok exampleInit := by decide

/-- The concrete family state is what the family constructor computes. -/
theorem exampleCal_is_constructed :
    mkHstCalScanner true exampleCsv exampleGlob (-1) =
      Except.ok exampleCal := by decide

/-- C1 (code-bug evidence): `make_mega` stores the *same* `res_keys` dict
as the `"res"` of every version, so the writes of `_scan_results` all land
in one shared dict: after scanning two runs with one declared kind, the
slot of version `v0` (and of `v1` alike) holds the record loaded from the
*second* run's results path `data/2021-10-28-1635457222/results/test` —
not `v0`'s own `data/2021-08-22-1629663047/results/test`.  The loader is
instantiated with the identity, so each stored record names the bundle
path it was loaded from. -/
theorem scan_results_aliases_all_versions :
    (mkMegaScanner true
        ["data/2021-08-22-1629663047", "data/2021-10-28-1635457222"]
        (-1)).map
      (fun st =>
        (gMegaRes (gScanResults (fun p => p) ["test"]
            (gScannerOfInit st ["test"])) "v0" "test",
         gMegaRes (gScanResults (fun p => p) ["test"]
            (gScannerOfInit st ["test"])) "v1" "test")) =
    Except.ok
      (some (some "data/2021-10-28-1635457222/results/test"),
       some (some "data/2021-10-28-1635457222/results/test")) := by decide

/-- C2 witness: on a disk where v1's `mem_bin` bundle is missing,
`scan_results` returns normally and records an explicit Absent (`none`) in
v1's `mem_bin` slot. -/
theorem calScanResults_stores_loader_outcome_witness :
    ∃ st', calScanResults exampleDiskAbsentV1 exampleCal = Except.ok st' ∧
      calMegaRes st' "v1" "mem_bin" = some none := by
  obtain ⟨st', hok, hpt⟩ := calScanResults_stores_loader_outcome
    exampleDiskAbsentV1 exampleCal ["v0", "v1", "v2"]
    (by decide) (by decide) (by decide) (by decide)
  refine ⟨st', hok, ?_⟩
  have h1 := (hpt 1 "data/2021-10-28-1635457222" "v1" (by decide) (by decide)).1
  rw [h1]
  decide

/-- C3 witness: a second `scan_results` over the unchanged disk maps the
already-scanned state to itself. -/
theorem calScanResults_idempotent_witness :
    calScanResults exampleDiskFull exampleCalScanned =
      Except.ok exampleCalScanned :=
  calScanResults_idempotent exampleDiskFull exampleCal exampleCalScanned
    ["v0", "v1", "v2"] (by decide) (by decide) (by decide) (by decide)
    (by decide)

/-- C4 witness: the spec's example — the three directories get dates
`2021-08-22`, `2021-10-28`, `2021-11-04` and versions `v0, v1, v2`, in
sorted order. -/
theorem versions_dates_witness :
    exampleInit.dates = ["2021-08-22", "2021-10-28", "2021-11-04"] ∧
    (calMakeMega none exampleInit.dates exampleInit.timestamps
      calResKeys).2.map Prod.fst = ["v0", "v1", "v2"] := by
  obtain ⟨-, -, -, hdates, hmk⟩ :=
    versions_dates_of_construction true exampleGlob (-1) exampleInit
      (by decide)
  refine ⟨?_, ?_⟩
  · rw [hdates]
    decide
  · rw [(hmk calResKeys).2.1]
    decide

/-- C5 counterexample: with 3 discovered runs, `select_dataset(primary=3)`
raises `IndexError` — the out-of-range guard (`>` instead of `>=`) does not
fall back for an index equal to the run count, refuting "never raises". -/
theorem selectDataset_raises_at_run_count :
    (mkMegaScanner true exampleGlob (-1)).bind
        (fun st => selectDataset exampleCsv st (some 3)) =
      Except.error PyError.indexError := by decide

/-- C5 witness: `select_dataset(primary=99)` on 3 runs falls back to index
`-1` and returns the 3rd (most recent) run's dataset path. -/
theorem selectDataset_fallback_witness :
    selectDataset exampleCsv exampleInit (some 99) =
      Except.ok (-1, some "data/2021-11-04-1636048291/data/df.csv") :=
  (selectDataset_fallback_and_none exampleCsv exampleInit 99).2.1
    (by decide) (by decide) "data/2021-11-04-1636048291"
    "data/2021-11-04-1636048291/data/df.csv" [] (by decide) (by decide)

/-- C6 counterexample: with v1's regressor-family record Absent,
`compare_scores` raises `AttributeError` (from `None.acc_loss`) instead of
producing a column of missing values — refuting "does not raise". -/
theorem compareScores_raises_on_absent :
    ((mkHstCalScanner true exampleCsv exampleGlob (-1)).bind
        (calScanResults exampleDiskAbsentV1)).bind
      (fun st => compareScores st "acc_loss") =
    Except.error PyError.attributeError := by decide

/-- C6 witness: with every record present, the score table has exactly the
columns `v0, v1, v2`, in order. -/
theorem compareScores_columns_witness :
    ∃ cols, compareScores exampleCalScanned "acc_loss" = Except.ok cols ∧
      cols.map Prod.fst = ["v0", "v1", "v2"] := by
  apply compareScores_columns_when_present exampleCalScanned "acc_loss"
    ["v0", "v1", "v2"] (by decide) (by decide)
  intro v hv
  fin_cases hv
  · exact ⟨{ date := "2021-08-22", time := 1629663047, res := fullRes },
      exampleRecord, by decide, by decide⟩
  · exact ⟨{ date := "2021-10-28", time := 1635457222, res := fullRes },
      exampleRecord, by decide, by decide⟩
  · exact ⟨{ date := "2021-11-04", time := 1636048291, res := fullRes },
      exampleRecord, by decide, by decide⟩

/-- C7 counterexample: with v1's record Absent, `make_clf_plots` raises
`AttributeError` — the Absent version is not omitted from the bundle, no
bundle is produced at all. -/
theorem makeClfPlots_raises_on_absent :
    ((mkHstCalScanner true exampleCsv exampleGlob (-1)).bind
        (calScanResults exampleDiskAbsentV1)).bind
      (fun st => makeClfPlots st "mem_bin") =
    Except.error PyError.attributeError := by decide

/-- C7 witness: with all three records present the bundle holds exactly
three matrices, one per version, and `triple_cmx`'s subtitles are the three
versions, aligned 1:1. -/
theorem cmxBundle_all_versions_witness :
    ∃ recs : List ComRecord,
      makeClfPlots exampleCalScanned "mem_bin" =
        Except.ok { normalized := recs.map ComRecord.cmx_norm,
                    counts := recs.map ComRecord.cmx } ∧
      recs.length = 3 ∧
      tripleCmx ["v0", "v1", "v2"] (recs.map ComRecord.cmx_norm) =
        (["v0", "v1", "v2"], 3) := by
  have h := cmxBundle_all_versions exampleCalScanned "mem_bin"
    ["v0", "v1", "v2"] (by decide) ?hpres
  case hpres =>
    intro v hv
    fin_cases hv
    · exact ⟨exampleRecord, by decide⟩
    · exact ⟨exampleRecord, by decide⟩
    · exact ⟨exampleRecord, by decide⟩
  obtain ⟨recs, hm, hlen, -, htc⟩ := h
  exact ⟨recs, hm, by rw [hlen]; rfl, by rw [htc]; decide⟩

/-- C8 counterexample: one malformed directory name (`data/badname`) makes
construction raise `ValueError` — the entry is not skipped, and the
remaining well-formed directory is not discovered or versioned. -/
theorem malformed_name_aborts_construction :
    mkMegaScanner true ["data/2021-08-22-1629663047", "data/badname"] (-1) =
      Except.error PyError.valueError := by decide

/-- C8 witness: over well-formed names, discovery and construction
succeed. -/
theorem discovery_succeeds_witness :
    ∃ st, mkMegaScanner true exampleGlob (-1) = Except.ok st :=
  (discovery_aborts_on_malformed exampleGlob (-1)).2 (by decide)

/-- C9 witness: the spec's example — decoding
`{"det": {0: "hrc", ..., 4: "wfc"}}` on a row with `det=4` yields
`det_key="wfc"` on that row while `det` keeps its value. -/
theorem decode_companion_witness :
    alookup exampleRow0Decoded ("det" ++ "_key") = some (Value.str "wfc") ∧
    alookup exampleRow0Decoded "det" = alookup exampleRow0 "det" := by
  have h := decode_categorical_adds_companion exampleDf exampleDecoder
    exampleDfDecoded (by decide) (by decide) (by decide) (by decide)
  have h0 := h.2 0 exampleRow0 exampleRow0Decoded (by decide) (by decide)
  exact ⟨h0.2 ("det", [(0, "hrc"), (1, "ir"), (2, "sbc"), (3, "uvis"),
      (4, "wfc")]) (by decide) 4 "wfc" (by decide) (by decide),
    h0.1 "det" (by decide)⟩

/-- C10 counterexample: with plotly missing *and* a malformed run name,
construction raises `ValueError`, not `ImportError` — the timestamp parsing
of `__init__` runs before the plotly check. -/
theorem missing_plotly_can_raise_valueerror :
    mkMegaScanner false ["data/badname"] (-1) =
      Except.error PyError.valueError := by decide

/-- C10 witness: with plotly missing and well-formed names, construction
raises `ImportError`. -/
theorem no_scanner_without_plotly_witness :
    mkMegaScanner false exampleGlob (-1) =
      Except.error PyError.importError :=
  (no_scanner_without_plotly exampleGlob (-1)).2.1 (by decide)


end SpacekitScan
